import Mathlib

/-
Verification of the compacting string memory subsystem of the s-store
storage engine (src/src/ee/common/StringRef.h and its collaborators).

The repository excerpt ships only the header `StringRef.h`, which declares
the Handle type (`StringRef`) with fields `m_size`, `m_tempPool`,
`m_stringPtr`, the operations `create`, `destroy`, `get`,
`updateStringLocation`, `setBackPtr`, and names its collaborators
`CompactingStringPool` (the Compacting Pool) and `ThreadLocalPool`
(the Pool Registry).  The bodies of those operations and the pool and
registry implementations are not part of the excerpt, so the dynamic
behavior below is modelled from the specification document, faithful to
its words: a size-classed pool holding a dense prefix of live byte
blocks, swap-to-end compaction on free, back-pointer driven relocation
callbacks, an arena path for temporary handles, and explicit
InvalidSize / OutOfMemory / PreconditionViolation errors.

Bytes are modelled as natural numbers; a block address is modelled as a
slot index (the spec states block addresses encode their slot).  A
Handle's identity (the address of the Handle object itself) is modelled
as a natural-number key in an association list: the key never changes,
mirroring that the Handle object is never relocated.
-/

namespace SStore

/-- Modelled from the spec: a byte of payload storage. -/
abbrev Byte := Nat

/-- Modelled from the spec: a byte block owned by a Compacting Pool — a
payload of bytes prefixed by a hidden back-pointer slot holding the
identity of the owning Handle (`CompactingStringPool`, not in the
excerpt). -/
structure Block where
  backPtr : Nat
  payload : List Byte
deriving Repr, DecidableEq

/-- Handle fields as declared in src/src/ee/common/StringRef.h:
`m_size`, `m_tempPool`, and the cached byte-block address `m_stringPtr`
(modelled as a slot index). -/
structure Handle where
  m_size : Nat
  m_tempPool : Bool
  m_stringPtr : Nat
deriving Repr, DecidableEq

/-- Modelled from the spec: `StringRef::updateStringLocation` — the
relocation callback overwrites the cached byte-block pointer and
nothing else (body not in the excerpt). -/
def updateStringLocation (h : Handle) (location : Nat) : Handle :=
  { h with m_stringPtr := location }

/-- Modelled from the spec: `StringRef::get` returns the cached pointer
to the byte block (body not in the excerpt). -/
def Handle.get (h : Handle) : Nat :=
  h.m_stringPtr

/-- Modelled from the spec: a Compacting Pool for one size class — a
backing array of slots (capacity = number of slots) of which the first
`occupancy` hold live blocks. -/
structure CPool where
  slots : List (Option Block)
  occupancy : Nat
deriving Repr, DecidableEq

/-- Capacity of a pool: the length of its backing slot array. -/
def CPool.capacity (p : CPool) : Nat :=
  p.slots.length

/-- Modelled from the spec: whole-subsystem state for one size class —
the Compacting Pool, the live Handles keyed by their (stable) identity,
one Arena modelled as its list of issued blocks, a fresh-identity
counter, and the memory budget that bounds backing-storage growth. -/
structure SysState where
  pool : CPool
  handles : List (Nat × Handle)
  arena : List (List Byte)
  nextId : Nat
  memLimit : Nat
deriving Repr, DecidableEq

/-- Association-list lookup of a Handle by its identity. -/
def lookupH (id : Nat) : List (Nat × Handle) → Option Handle
  | [] => none
  | (k, h) :: rest => if k = id then some h else lookupH id rest

/-- Association-list update of the Handle bound to an identity
(first binding only; keys are kept distinct by the invariant). -/
def setH (id : Nat) (h : Handle) : List (Nat × Handle) → List (Nat × Handle)
  | [] => []
  | (k, h0) :: rest => if k = id then (k, h) :: rest else (k, h0) :: setH id h rest

/-- Association-list removal of the binding for an identity
(first binding only). -/
def removeH (id : Nat) : List (Nat × Handle) → List (Nat × Handle)
  | [] => []
  | (k, h0) :: rest => if k = id then rest else (k, h0) :: removeH id rest

/-- Modelled from the spec: the error taxonomy of the subsystem. -/
inductive Err where
  | InvalidSize
  | OutOfMemory
  | PreconditionViolation
deriving Repr, DecidableEq

/-- Modelled from the spec: the implementation-defined maximum block
size (the spec leaves the constant open; 1 MiB here). -/
def maxBlockSize : Nat := 1048576

/-- Modelled from the spec: the size-class bucketing function of the
Pool Registry (`ThreadLocalPool::for_size`, not in the excerpt) —
rounding the requested size up to the nearest power of two, the
spec's own example of a deterministic, monotone bucketing. -/
def sizeClass (size : Nat) : Nat :=
  2 ^ Nat.clog 2 size

/-- Capacity of the pool after one geometric growth step: the backing
array doubles (from zero it becomes one slot). -/
def growCap (p : CPool) : Nat :=
  p.slots.length + max 1 p.slots.length

/-- Modelled from the spec: geometric growth of the backing slot array;
grown slots are free. -/
def grow (p : CPool) : CPool :=
  { p with slots := p.slots ++ List.replicate (max 1 p.slots.length) none }

/-- Modelled from the spec: the pool grows its backing array exactly
when it is full. -/
def growIfFull (p : CPool) : CPool :=
  if p.occupancy = p.capacity then grow p else p

/-- Modelled from the spec: `StringRef::create(size)` without an arena —
reject size 0 and oversize requests with InvalidSize before any
allocation; fail with OutOfMemory, leaving all state unchanged, when
the needed growth exceeds the memory budget; otherwise append a fresh
zero-filled block at index `occupancy`, install the back-pointer to the
new Handle in the block's hidden slot, record the Handle with
`m_tempPool = false` caching the new slot, and bump occupancy. -/
def create (size : Nat) (st : SysState) : Except Err Nat × SysState :=
  if size = 0 ∨ maxBlockSize < size then
    (.error .InvalidSize, st)
  else if st.pool.occupancy = st.pool.capacity ∧ st.memLimit < growCap st.pool then
    (.error .OutOfMemory, st)
  else
    let p := growIfFull st.pool
    let id := st.nextId
    let blk : Block := { backPtr := id, payload := List.replicate size 0 }
    let p' : CPool := { slots := p.slots.set st.pool.occupancy (some blk),
                        occupancy := st.pool.occupancy + 1 }
    let h : Handle := { m_size := size, m_tempPool := false,
                        m_stringPtr := st.pool.occupancy }
    (.ok id, { st with pool := p', handles := (id, h) :: st.handles, nextId := id + 1 })

/-- Modelled from the spec: `StringRef::create(size, arena)` with an
arena — the Handle and its byte block are carved from the arena,
`m_tempPool = true`, and no back-pointer is installed (arena blocks are
raw byte runs with no back-pointer slot). -/
def createTemp (size : Nat) (st : SysState) : Except Err Nat × SysState :=
  if size = 0 ∨ maxBlockSize < size then
    (.error .InvalidSize, st)
  else
    let id := st.nextId
    let h : Handle := { m_size := size, m_tempPool := true,
                        m_stringPtr := st.arena.length }
    (.ok id, { st with arena := st.arena ++ [List.replicate size 0],
                       handles := (id, h) :: st.handles, nextId := id + 1 })

/-- Modelled from the spec: `CompactingStringPool::free` — swap-to-end
compaction.  Freeing the block at slot `i`: when `i` is the last live
index, just clear it and decrement occupancy; otherwise copy the last
block (payload and back-pointer) into slot `i`, clear the vacated last
slot, decrement occupancy, and invoke `updateStringLocation` on the
Handle named by the relocated block's back-pointer with the new
address `i`. -/
def freeBlk (i : Nat) (p : CPool) (hs : List (Nat × Handle)) :
    CPool × List (Nat × Handle) :=
  if i = p.occupancy - 1 then
    ({ slots := p.slots.set i none, occupancy := p.occupancy - 1 }, hs)
  else
    match p.slots[p.occupancy - 1]? with
    | some (some b) =>
        let hs' := match lookupH b.backPtr hs with
          | some hb => setH b.backPtr (updateStringLocation hb i) hs
          | none => hs
        ({ slots := (p.slots.set i (some b)).set (p.occupancy - 1) none,
           occupancy := p.occupancy - 1 }, hs')
    | _ => (p, hs)

/-- Modelled from the spec: `StringRef::destroy` — a precondition
violation on an unknown (already destroyed) Handle or on a temporary
arena-backed Handle, leaving the state unchanged; otherwise return the
byte block to the pool (triggering compaction) and release the Handle. -/
def destroy (id : Nat) (st : SysState) : Except Err Unit × SysState :=
  match lookupH id st.handles with
  | none => (.error .PreconditionViolation, st)
  | some h =>
    if h.m_tempPool then
      (.error .PreconditionViolation, st)
    else
      let pr := freeBlk h.m_stringPtr st.pool st.handles
      (.ok (), { st with pool := pr.1, handles := removeH id pr.2 })

/-- Modelled from the spec: writing `size` bytes of a pattern through
the pointer returned by `get` — overwrites the payload of the block the
Handle currently caches (in the pool or in the arena). -/
def writeH (id : Nat) (pattern : List Byte) (st : SysState) :
    Except Err Unit × SysState :=
  match lookupH id st.handles with
  | none => (.error .PreconditionViolation, st)
  | some h =>
    if h.m_tempPool then
      (.ok (), { st with arena := st.arena.set h.m_stringPtr pattern })
    else
      match st.pool.slots[h.m_stringPtr]? with
      | some (some b) =>
          (.ok (), { st with pool := { st.pool with
                       slots := st.pool.slots.set h.m_stringPtr
                         (some { b with payload := pattern }) } })
      | _ => (.error .PreconditionViolation, st)

/-- Modelled from the spec: the bytes read through the pointer returned
by `get()` — the payload of the block the Handle currently caches. -/
def readH (id : Nat) (st : SysState) : Option (List Byte) :=
  match lookupH id st.handles with
  | none => none
  | some h =>
    if h.m_tempPool then
      st.arena[h.m_stringPtr]?
    else
      match st.pool.slots[h.m_stringPtr]? with
      | some (some b) => some b.payload
      | _ => none

/-- Modelled from the spec: the operations a caller can issue against
one size class. -/
inductive Op where
  | create (size : Nat)
  | createTemp (size : Nat)
  | destroy (id : Nat)
  | write (id : Nat) (pattern : List Byte)
deriving Repr, DecidableEq

/-- State reached after one operation (a failed operation leaves the
state unchanged, as each operation returns it unchanged on error). -/
def applyOp (op : Op) (st : SysState) : SysState :=
  match op with
  | .create s => (create s st).2
  | .createTemp s => (createTemp s st).2
  | .destroy id => (destroy id st).2
  | .write id pat => (writeH id pat st).2

/-- State reached after a sequence of operations. -/
def run (ops : List Op) (st : SysState) : SysState :=
  ops.foldl (fun s op => applyOp op s) st

/-- Empty initial state with a given memory budget. -/
def initState (memLimit : Nat) : SysState :=
  { pool := { slots := [], occupancy := 0 }, handles := [], arena := [],
    nextId := 0, memLimit := memLimit }

/-- Byte pattern "HELLOWORLD" in ASCII. -/
def helloPattern : List Byte := [72, 69, 76, 76, 79, 87, 79, 82, 76, 68]

/-- Byte pattern "GOODBYEFLY" in ASCII. -/
def goodbyePattern : List Byte := [71, 79, 79, 68, 66, 89, 69, 70, 76, 89]

/-- Modelled from the spec: the concrete two-handle scenario — create a
10-byte block, write "HELLOWORLD", create a second 10-byte block, write
"GOODBYEFLY". -/
def demoState : SysState :=
  run [Op.create 10, Op.write 0 helloPattern, Op.create 10,
    Op.write 1 goodbyePattern] (initState 100)

/-- Observable identity-independent part of a Handle lookup: the
immutable `m_size` and `m_tempPool` fields. -/
def handleSig (o : Option Handle) : Option (Nat × Bool) :=
  o.map fun h => (h.m_size, h.m_tempPool)

/-- Decides whether an operation sequence ever destroys the given
Handle identity. -/
def destroys (id : Nat) : List Op → Bool
  | [] => false
  | Op.destroy id' :: rest => id' == id || destroys id rest
  | _ :: rest => destroys id rest

/-- Demonstration state holding one temporary arena-backed handle. -/
def tempDemo : SysState :=
  run [Op.createTemp 4] (initState 100)

/-- Demonstration state holding one pool-backed handle. -/
def oneDemo : SysState :=
  run [Op.create 5] (initState 100)

/-- Demonstration state whose pool is full (one slot, one live block)
and whose memory budget forbids any growth. -/
def fullDemo : SysState :=
  { pool := { slots := [some { backPtr := 0, payload := [1] }], occupancy := 1 },
    handles := [(0, { m_size := 1, m_tempPool := false, m_stringPtr := 0 })],
    arena := [], nextId := 1, memLimit := 0 }

/-- Consistency invariant of the subsystem, modelled from the spec:
occupancy bounded by capacity; live blocks exactly the contiguous slot
prefix `[0, occupancy)`; every pool block's back-pointer names exactly
the live non-temporary Handle caching that slot, and conversely; every
temporary Handle caches a valid arena index; Handle identities are
below the fresh counter and pairwise distinct. -/
structure Inv (st : SysState) : Prop where
  occ_le : st.pool.occupancy ≤ st.pool.capacity
  dense_live : ∀ j, j < st.pool.occupancy → ∃ b, st.pool.slots[j]? = some (some b)
  dense_free : ∀ j, st.pool.occupancy ≤ j → j < st.pool.capacity →
      st.pool.slots[j]? = some none
  back_consistent : ∀ j b, st.pool.slots[j]? = some (some b) →
      ∃ h, lookupH b.backPtr st.handles = some h ∧
        h.m_tempPool = false ∧ h.m_stringPtr = j
  handle_consistent : ∀ id h, lookupH id st.handles = some h →
      h.m_tempPool = false →
      ∃ b, st.pool.slots[h.m_stringPtr]? = some (some b) ∧ b.backPtr = id
  temp_consistent : ∀ id h, lookupH id st.handles = some h →
      h.m_tempPool = true → h.m_stringPtr < st.arena.length
  keys_lt : ∀ id h, lookupH id st.handles = some h → id < st.nextId
  keys_nodup : (st.handles.map Prod.fst).Nodup

theorem lookupH_cons_self (k : Nat) (h : Handle) (l : List (Nat × Handle)) :
    lookupH k ((k, h) :: l) = some h := by
  simp [lookupH]

theorem lookupH_setH_self (k : Nat) (v : Handle) (l : List (Nat × Handle)) :
    lookupH k (setH k v l) = (lookupH k l).map fun _ => v := by
  induction l with
  | nil => simp [lookupH, setH]
  | cons kv rest ih =>
    obtain ⟨k0, h0⟩ := kv
    by_cases hk : k0 = k
    · subst hk; simp [lookupH, setH]
    · simp [lookupH, setH, hk, ih]

theorem lookupH_setH_ne (k k' : Nat) (v : Handle) (l : List (Nat × Handle))
    (hne : k' ≠ k) : lookupH k (setH k' v l) = lookupH k l := by
  induction l with
  | nil => simp [lookupH, setH]
  | cons kv rest ih =>
    obtain ⟨k0, h0⟩ := kv
    by_cases hk : k0 = k'
    · subst hk
      simp [lookupH, setH, hne]
    · by_cases hk2 : k0 = k <;> simp [lookupH, setH, hk, hk2, Ne.symm hne, ih]

theorem lookupH_removeH_ne (k k' : Nat) (l : List (Nat × Handle))
    (hne : k' ≠ k) : lookupH k (removeH k' l) = lookupH k l := by
  induction l with
  | nil => simp [lookupH, removeH]
  | cons kv rest ih =>
    obtain ⟨k0, h0⟩ := kv
    by_cases hk : k0 = k'
    · subst hk
      simp [lookupH, removeH, hne]
    · by_cases hk2 : k0 = k <;> simp [lookupH, removeH, hk, hk2, Ne.symm hne, ih]

theorem mem_of_lookupH_some {k : Nat} {h : Handle} {l : List (Nat × Handle)}
    (hl : lookupH k l = some h) : k ∈ l.map Prod.fst := by
  induction l with
  | nil => simp [lookupH] at hl
  | cons kv rest ih =>
    obtain ⟨k0, h0⟩ := kv
    by_cases hk : k0 = k
    · subst hk; simp
    · simp only [lookupH, if_neg hk] at hl
      simp [ih hl]

theorem lookupH_eq_none_of_not_mem {k : Nat} {l : List (Nat × Handle)}
    (hk : k ∉ l.map Prod.fst) : lookupH k l = none := by
  induction l with
  | nil => simp [lookupH]
  | cons kv rest ih =>
    obtain ⟨k0, h0⟩ := kv
    simp only [List.map_cons, List.mem_cons, not_or] at hk
    have hne : ¬k0 = k := fun h => hk.1 h.symm
    simp [lookupH, hne, ih hk.2]

theorem lookupH_removeH_self {k : Nat} {l : List (Nat × Handle)}
    (hnd : (l.map Prod.fst).Nodup) : lookupH k (removeH k l) = none := by
  induction l with
  | nil => simp [lookupH, removeH]
  | cons kv rest ih =>
    obtain ⟨k0, h0⟩ := kv
    simp only [List.map_cons, List.nodup_cons] at hnd
    by_cases hk : k0 = k
    · subst hk
      simp only [removeH, if_pos rfl]
      exact lookupH_eq_none_of_not_mem hnd.1
    · simp [removeH, lookupH, hk, ih hnd.2]

theorem keys_setH (k : Nat) (v : Handle) (l : List (Nat × Handle)) :
    (setH k v l).map Prod.fst = l.map Prod.fst := by
  induction l with
  | nil => simp [setH]
  | cons kv rest ih =>
    obtain ⟨k0, h0⟩ := kv
    by_cases hk : k0 = k <;> simp [setH, hk, ih]

theorem keys_removeH_sublist (k : Nat) (l : List (Nat × Handle)) :
    ((removeH k l).map Prod.fst).Sublist (l.map Prod.fst) := by
  induction l with
  | nil => simp [removeH]
  | cons kv rest ih =>
    obtain ⟨k0, h0⟩ := kv
    by_cases hk : k0 = k
    · subst hk
      simp only [removeH, if_pos rfl, List.map_cons]
      exact (List.sublist_cons_self _ _).trans (List.Sublist.refl _)
    · simpa [removeH, hk] using ih.cons₂ k0

theorem keys_removeH_nodup {k : Nat} {l : List (Nat × Handle)}
    (hnd : (l.map Prod.fst).Nodup) : ((removeH k l).map Prod.fst).Nodup :=
  hnd.sublist (keys_removeH_sublist k l)

theorem slot_lt_occ {st : SysState} (hI : Inv st) {j : Nat} {b : Block}
    (hs : st.pool.slots[j]? = some (some b)) : j < st.pool.occupancy := by
  by_contra hso
  push_neg at hso
  by_cases hc : j < st.pool.capacity
  · have := hI.dense_free j hso hc
    rw [this] at hs
    exact Option.noConfusion (Option.some.inj hs)
  · push_neg at hc
    have : st.pool.slots[j]? = none := List.getElem?_eq_none hc
    rw [this] at hs
    exact Option.noConfusion hs

theorem ptr_of_handle_lt {st : SysState} (hI : Inv st) {id : Nat} {h : Handle}
    (hl : lookupH id st.handles = some h) (ht : h.m_tempPool = false) :
    h.m_stringPtr < st.pool.occupancy := by
  obtain ⟨b, hb, -⟩ := hI.handle_consistent id h hl ht
  exact slot_lt_occ hI hb

theorem handle_ptr_inj {st : SysState} (hI : Inv st) {id id' : Nat} {h h' : Handle}
    (hl : lookupH id st.handles = some h) (hl' : lookupH id' st.handles = some h')
    (ht : h.m_tempPool = false) (ht' : h'.m_tempPool = false)
    (hp : h.m_stringPtr = h'.m_stringPtr) : id = id' := by
  obtain ⟨b, hb, hbid⟩ := hI.handle_consistent id h hl ht
  obtain ⟨b', hb', hbid'⟩ := hI.handle_consistent id' h' hl' ht'
  rw [hp, hb'] at hb
  have hbb : b' = b := Option.some.inj (Option.some.inj hb)
  rw [← hbid, ← hbid', hbb]

theorem lookupH_some_of_mem {k : Nat} {l : List (Nat × Handle)}
    (hk : k ∈ l.map Prod.fst) : ∃ h, lookupH k l = some h := by
  induction l with
  | nil => simp at hk
  | cons kv rest ih =>
    obtain ⟨k0, h0⟩ := kv
    by_cases he : k0 = k
    · exact ⟨h0, by simp [lookupH, he]⟩
    · simp only [List.map_cons, List.mem_cons] at hk
      rcases hk with hk | hk
      · exact absurd hk.symm he
      · obtain ⟨h, hh⟩ := ih hk
        exact ⟨h, by simp [lookupH, he, hh]⟩

theorem lt_length_of_getElem? {α : Type _} {l : List α} {i : Nat} {a : α}
    (h : l[i]? = some a) : i < l.length :=
  (List.getElem?_eq_some.mp h).1

theorem Inv_createTemp {st : SysState} (hI : Inv st) (s : Nat) :
    Inv (createTemp s st).2 := by
  unfold createTemp
  split
  · exact hI
  · dsimp only
    refine ⟨hI.occ_le, hI.dense_live, hI.dense_free, ?_, ?_, ?_, ?_, ?_⟩
    · intro j b hj
      obtain ⟨h0, hl0, ht0, hp0⟩ := hI.back_consistent j b hj
      have hlt := hI.keys_lt _ _ hl0
      exact ⟨h0, by simp [lookupH, Nat.ne_of_gt hlt, hl0], ht0, hp0⟩
    · intro id' h' hl' htp'
      simp only [lookupH] at hl'
      by_cases hn : st.nextId = id'
      · rw [if_pos hn] at hl'
        cases Option.some.inj hl'
        simp at htp'
      · rw [if_neg hn] at hl'
        exact hI.handle_consistent id' h' hl' htp'
    · intro id' h' hl' htp'
      simp only [lookupH] at hl'
      by_cases hn : st.nextId = id'
      · rw [if_pos hn] at hl'
        cases Option.some.inj hl'
        simp [List.length_append]
      · rw [if_neg hn] at hl'
        have := hI.temp_consistent id' h' hl' htp'
        show h'.m_stringPtr < (st.arena ++ [List.replicate s 0]).length
        simp only [List.length_append, List.length_cons, List.length_nil]
        omega
    · intro id' h' hl'
      simp only [lookupH] at hl'
      show id' < st.nextId + 1
      by_cases hn : st.nextId = id'
      · omega
      · rw [if_neg hn] at hl'
        have := hI.keys_lt id' h' hl'
        omega
    · simp only [List.map_cons, List.nodup_cons]
      refine ⟨?_, hI.keys_nodup⟩
      intro hmem
      obtain ⟨h0, hl0⟩ := lookupH_some_of_mem hmem
      exact absurd (hI.keys_lt _ _ hl0) (by omega)

theorem Inv_writeH {st : SysState} (hI : Inv st) (id : Nat) (pat : List Byte) :
    Inv (writeH id pat st).2 := by
  unfold writeH
  split
  · exact hI
  · rename_i h hl
    split
    · -- arena write: only the arena changes, its length is preserved
      refine ⟨hI.occ_le, hI.dense_live, hI.dense_free, hI.back_consistent,
        hI.handle_consistent, ?_, hI.keys_lt, hI.keys_nodup⟩
      intro id' h' hl' htp'
      have := hI.temp_consistent id' h' hl' htp'
      simpa [List.length_set] using this
    · split
      · rename_i b hsl
        dsimp only
        have hptr : h.m_stringPtr < st.pool.slots.length :=
          lt_length_of_getElem? hsl
        refine ⟨?_, ?_, ?_, ?_, ?_, hI.temp_consistent, hI.keys_lt, hI.keys_nodup⟩
        · simpa [CPool.capacity, List.length_set] using hI.occ_le
        · intro j hj
          by_cases hje : j = h.m_stringPtr
          · subst hje
            exact ⟨_, List.getElem?_set_self hptr⟩
          · obtain ⟨b', hb'⟩ := hI.dense_live j hj
            exact ⟨b', by rw [List.getElem?_set_ne (fun he => hje he.symm), hb']⟩
        · intro j hj hjc
          dsimp only at hj hjc ⊢
          have hjp : h.m_stringPtr ≠ j := by
            have := slot_lt_occ hI hsl
            omega
          rw [List.getElem?_set_ne hjp]
          exact hI.dense_free j hj (by simpa [CPool.capacity, List.length_set] using hjc)
        · intro j b' hb'
          by_cases hje : h.m_stringPtr = j
          · subst hje
            rw [List.getElem?_set_self hptr] at hb'
            cases Option.some.inj (Option.some.inj hb')
            obtain ⟨h0, hl0, ht0, hp0⟩ := hI.back_consistent _ b hsl
            exact ⟨h0, hl0, ht0, hp0⟩
          · rw [List.getElem?_set_ne hje] at hb'
            exact hI.back_consistent j b' hb'
        · intro id' h' hl' htp'
          obtain ⟨b', hb', hid'⟩ := hI.handle_consistent id' h' hl' htp'
          by_cases hje : h.m_stringPtr = h'.m_stringPtr
          · rw [← hje, hsl] at hb'
            cases Option.some.inj (Option.some.inj hb')
            refine ⟨{ b with payload := pat }, ?_, hid'⟩
            rw [← hje]
            exact List.getElem?_set_self hptr
          · exact ⟨b', by rw [List.getElem?_set_ne hje]; exact hb', hid'⟩
      · exact hI

theorem growIfFull_occupancy (p : CPool) : (growIfFull p).occupancy = p.occupancy := by
  unfold growIfFull grow
  split <;> rfl

theorem occ_lt_growIfFull_length {p : CPool} (h : p.occupancy ≤ p.capacity) :
    p.occupancy < (growIfFull p).slots.length := by
  unfold growIfFull grow
  split
  · rename_i hfull
    simp only [List.length_append, List.length_replicate]
    have := Nat.le_max_left 1 p.slots.length
    simp only [CPool.capacity] at hfull
    omega
  · rename_i hfull
    simp only [CPool.capacity] at hfull
    exact Nat.lt_of_le_of_ne h hfull

theorem growIfFull_getElem?_lt {p : CPool} {j : Nat} (hj : j < p.slots.length) :
    (growIfFull p).slots[j]? = p.slots[j]? := by
  by_cases hfull : p.occupancy = p.capacity
  · simp only [growIfFull, grow, if_pos hfull, List.getElem?_append, hj, if_pos]
  · simp only [growIfFull, if_neg hfull]

theorem growIfFull_getElem?_ge {p : CPool}
    (hfree : ∀ j, p.occupancy ≤ j → j < p.capacity → p.slots[j]? = some none) :
    ∀ j, p.occupancy ≤ j → j < (growIfFull p).slots.length →
      (growIfFull p).slots[j]? = some none := by
  intro j hj hjl
  by_cases hfull : p.occupancy = p.capacity
  · simp only [growIfFull, grow, if_pos hfull] at hjl ⊢
    simp only [CPool.capacity] at hfull
    simp only [List.length_append, List.length_replicate] at hjl
    have hge : p.slots.length ≤ j := by omega
    simp only [List.getElem?_append_right hge, List.getElem?_replicate]
    rw [if_pos (by omega)]
  · simp only [growIfFull, if_neg hfull] at hjl ⊢
    simp only [CPool.capacity] at hfull
    exact hfree j hj hjl

theorem Inv_create {st : SysState} (hI : Inv st) (s : Nat) :
    Inv (create s st).2 := by
  unfold create
  split
  · exact hI
  · split
    · exact hI
    · dsimp only
      have hlen : st.pool.occupancy < (growIfFull st.pool).slots.length :=
        occ_lt_growIfFull_length hI.occ_le
      have hpref : ∀ j, j < st.pool.slots.length →
          (growIfFull st.pool).slots[j]? = st.pool.slots[j]? :=
        fun j hj => growIfFull_getElem?_lt hj
      have hfree := growIfFull_getElem?_ge hI.dense_free
      have hol : st.pool.occupancy ≤ st.pool.slots.length := hI.occ_le
      have hlive : ∀ j b, (growIfFull st.pool).slots[j]? = some (some b) →
          j < st.pool.occupancy := by
        intro j b hjb
        by_contra hc
        push_neg at hc
        by_cases hjl : j < (growIfFull st.pool).slots.length
        · rw [hfree j hc hjl] at hjb
          exact Option.noConfusion (Option.some.inj hjb)
        · push_neg at hjl
          rw [List.getElem?_eq_none hjl] at hjb
          exact Option.noConfusion hjb
      refine ⟨?_, ?_, ?_, ?_, ?_, ?_, ?_, ?_⟩
      · show st.pool.occupancy + 1 ≤ ((growIfFull st.pool).slots.set _ _).length
        rw [List.length_set]
        omega
      · intro j hj
        dsimp only at hj
        by_cases hje : j = st.pool.occupancy
        · subst hje
          exact ⟨_, List.getElem?_set_self hlen⟩
        · have hjo : j < st.pool.occupancy := by omega
          obtain ⟨b, hb⟩ := hI.dense_live j hjo
          refine ⟨b, ?_⟩
          rw [List.getElem?_set_ne (fun he => hje he.symm),
            hpref j (by omega), hb]
      · intro j hj hjc
        dsimp only at hj hjc ⊢
        simp only [CPool.capacity, List.length_set] at hjc
        rw [List.getElem?_set_ne (by omega)]
        exact hfree j (by omega) hjc
      · intro j b hjb
        dsimp only at hjb ⊢
        by_cases hje : j = st.pool.occupancy
        · subst hje
          rw [List.getElem?_set_self hlen] at hjb
          cases Option.some.inj (Option.some.inj hjb)
          refine ⟨⟨s, false, st.pool.occupancy⟩, ?_, rfl, rfl⟩
          simp [lookupH]
        · rw [List.getElem?_set_ne (fun he => hje he.symm)] at hjb
          have hjo : j < st.pool.occupancy := hlive j b hjb
          rw [hpref j (by omega)] at hjb
          obtain ⟨h0, hl0, ht0, hp0⟩ := hI.back_consistent j b hjb
          have hlt := hI.keys_lt _ _ hl0
          exact ⟨h0, by simp [lookupH, Nat.ne_of_gt hlt, hl0], ht0, hp0⟩
      · intro id' h' hl' htp'
        simp only [lookupH] at hl'
        by_cases hn : st.nextId = id'
        · rw [if_pos hn] at hl'
          cases Option.some.inj hl'
          exact ⟨⟨st.nextId, List.replicate s 0⟩, List.getElem?_set_self hlen, hn⟩
        · rw [if_neg hn] at hl'
          obtain ⟨b', hb', hid'⟩ := hI.handle_consistent id' h' hl' htp'
          have hplt : h'.m_stringPtr < st.pool.occupancy := slot_lt_occ hI hb'
          refine ⟨b', ?_, hid'⟩
          rw [List.getElem?_set_ne (by omega), hpref _ (by omega), hb']
      · intro id' h' hl' htp'
        simp only [lookupH] at hl'
        by_cases hn : st.nextId = id'
        · rw [if_pos hn] at hl'
          cases Option.some.inj hl'
          simp at htp'
        · rw [if_neg hn] at hl'
          exact hI.temp_consistent id' h' hl' htp'
      · intro id' h' hl'
        simp only [lookupH] at hl'
        show id' < st.nextId + 1
        by_cases hn : st.nextId = id'
        · omega
        · rw [if_neg hn] at hl'
          have := hI.keys_lt id' h' hl'
          omega
      · simp only [List.map_cons, List.nodup_cons]
        refine ⟨?_, hI.keys_nodup⟩
        intro hmem
        obtain ⟨h0, hl0⟩ := lookupH_some_of_mem hmem
        exact absurd (hI.keys_lt _ _ hl0) (by omega)

theorem Inv_destroy {st : SysState} (hI : Inv st) (id : Nat) :
    Inv (destroy id st).2 := by
  unfold destroy
  split
  · exact hI
  · rename_i h hl
    split
    · exact hI
    · rename_i htp
      dsimp only
      have htp' : h.m_tempPool = false := by
        simpa using htp
      have hol : st.pool.occupancy ≤ st.pool.slots.length := hI.occ_le
      obtain ⟨b_i, hbi, hbid⟩ := hI.handle_consistent id h hl htp'
      have hi_lt : h.m_stringPtr < st.pool.occupancy := slot_lt_occ hI hbi
      have hi_len : h.m_stringPtr < st.pool.slots.length := by omega
      have hbne : ∀ j b', st.pool.slots[j]? = some (some b') →
          j ≠ h.m_stringPtr → b'.backPtr ≠ id := by
        intro j b' hb' hji heq
        obtain ⟨h0, hl0, ht0, hp0⟩ := hI.back_consistent j b' hb'
        rw [heq, hl] at hl0
        cases Option.some.inj hl0
        exact hji hp0.symm
      obtain ⟨bL, hbL⟩ := hI.dense_live (st.pool.occupancy - 1) (by omega)
      obtain ⟨hB, hlB, htB, hpB⟩ := hI.back_consistent _ bL hbL
      by_cases hcase : h.m_stringPtr = st.pool.occupancy - 1
      · -- the freed block is the last live block: no relocation
        simp only [freeBlk, if_pos hcase]
        refine ⟨?_, ?_, ?_, ?_, ?_, ?_, ?_, ?_⟩
        · show st.pool.occupancy - 1 ≤ (st.pool.slots.set _ _).length
          rw [List.length_set]
          omega
        · intro j hj
          dsimp only at hj
          refine ⟨(hI.dense_live j (by omega)).choose, ?_⟩
          rw [List.getElem?_set_ne (by omega)]
          exact (hI.dense_live j (by omega)).choose_spec
        · intro j hj hjc
          dsimp only at hj hjc ⊢
          simp only [CPool.capacity, List.length_set] at hjc
          by_cases hji : j = h.m_stringPtr
          · subst hji
            exact List.getElem?_set_self hi_len
          · rw [List.getElem?_set_ne (fun he => hji he.symm)]
            exact hI.dense_free j (by omega) hjc
        · intro j b' hb'
          dsimp only at hb'
          have hji : h.m_stringPtr ≠ j := by
            intro he
            rw [← he, List.getElem?_set_self hi_len] at hb'
            exact Option.noConfusion (Option.some.inj hb')
          rw [List.getElem?_set_ne hji] at hb'
          obtain ⟨h0, hl0, ht0, hp0⟩ := hI.back_consistent j b' hb'
          refine ⟨h0, ?_, ht0, hp0⟩
          rw [lookupH_removeH_ne _ _ _ (Ne.symm (hbne j b' hb' (fun he => hji he.symm)))]
          exact hl0
        · intro id' h' hl' htp''
          by_cases hid : id' = id
          · subst hid
            rw [lookupH_removeH_self hI.keys_nodup] at hl'
            exact Option.noConfusion hl'
          · rw [lookupH_removeH_ne _ _ _ (fun he => hid he.symm)] at hl'
            obtain ⟨b', hb', hid'⟩ := hI.handle_consistent id' h' hl' htp''
            have hpne : h'.m_stringPtr ≠ h.m_stringPtr := by
              intro he
              exact hid (handle_ptr_inj hI hl' hl htp'' htp' he)
            refine ⟨b', ?_, hid'⟩
            rw [List.getElem?_set_ne (fun he => hpne he.symm)]
            exact hb'
        · intro id' h' hl' htp''
          by_cases hid : id' = id
          · subst hid
            rw [lookupH_removeH_self hI.keys_nodup] at hl'
            exact Option.noConfusion hl'
          · rw [lookupH_removeH_ne _ _ _ (fun he => hid he.symm)] at hl'
            exact hI.temp_consistent id' h' hl' htp''
        · intro id' h' hl'
          by_cases hid : id' = id
          · subst hid
            rw [lookupH_removeH_self hI.keys_nodup] at hl'
            exact Option.noConfusion hl'
          · rw [lookupH_removeH_ne _ _ _ (fun he => hid he.symm)] at hl'
            exact hI.keys_lt id' h' hl'
        · exact keys_removeH_nodup hI.keys_nodup
      · -- swap-to-end relocation of the last live block into the freed slot
        have hIlast : h.m_stringPtr < st.pool.occupancy - 1 := by omega
        have hlast_len : st.pool.occupancy - 1 < st.pool.slots.length := by omega
        have hne_bid : bL.backPtr ≠ id := by
          intro heq
          rw [heq, hl] at hlB
          cases Option.some.inj hlB
          exact hcase hpB
        have hnodup' : ((setH bL.backPtr (updateStringLocation hB h.m_stringPtr)
            st.handles).map Prod.fst).Nodup := by
          rw [keys_setH]
          exact hI.keys_nodup
        simp only [freeBlk, if_neg hcase, hbL, hlB]
        refine ⟨?_, ?_, ?_, ?_, ?_, ?_, ?_, ?_⟩
        · show st.pool.occupancy - 1 ≤ ((st.pool.slots.set _ _).set _ _).length
          rw [List.length_set, List.length_set]
          omega
        · intro j hj
          dsimp only at hj
          by_cases hji : j = h.m_stringPtr
          · subst hji
            refine ⟨bL, ?_⟩
            rw [List.getElem?_set_ne (by omega), List.getElem?_set_self hi_len]
          · refine ⟨(hI.dense_live j (by omega)).choose, ?_⟩
            rw [List.getElem?_set_ne (by omega),
              List.getElem?_set_ne (fun he => hji he.symm)]
            exact (hI.dense_live j (by omega)).choose_spec
        · intro j hj hjc
          dsimp only at hj hjc ⊢
          simp only [CPool.capacity, List.length_set] at hjc
          by_cases hjl : j = st.pool.occupancy - 1
          · subst hjl
            rw [List.getElem?_set_self (by rw [List.length_set]; omega)]
          · rw [List.getElem?_set_ne (fun he => hjl he.symm),
              List.getElem?_set_ne (by omega)]
            exact hI.dense_free j (by omega) hjc
        · intro j b' hb'
          dsimp only at hb'
          by_cases hjl : j = st.pool.occupancy - 1
          · subst hjl
            rw [List.getElem?_set_self (by rw [List.length_set]; omega)] at hb'
            exact Option.noConfusion (Option.some.inj hb')
          · rw [List.getElem?_set_ne (fun he => hjl he.symm)] at hb'
            by_cases hji : j = h.m_stringPtr
            · subst hji
              rw [List.getElem?_set_self hi_len] at hb'
              cases Option.some.inj (Option.some.inj hb')
              refine ⟨updateStringLocation hB h.m_stringPtr, ?_, ?_, rfl⟩
              · rw [lookupH_removeH_ne _ _ _ (Ne.symm hne_bid),
                  lookupH_setH_self, hlB]
                rfl
              · show hB.m_tempPool = false
                exact htB
            · rw [List.getElem?_set_ne (fun he => hji he.symm)] at hb'
              obtain ⟨h0, hl0, ht0, hp0⟩ := hI.back_consistent j b' hb'
              have hne1 : b'.backPtr ≠ id := hbne j b' hb' hji
              have hne2 : b'.backPtr ≠ bL.backPtr := by
                intro heq
                rw [heq, hlB] at hl0
                cases Option.some.inj hl0
                exact hjl (hp0.symm.trans hpB)
              refine ⟨h0, ?_, ht0, hp0⟩
              rw [lookupH_removeH_ne _ _ _ (Ne.symm hne1),
                lookupH_setH_ne _ _ _ _ (Ne.symm hne2)]
              exact hl0
        · intro id' h' hl' htp''
          by_cases hid : id' = id
          · subst hid
            rw [lookupH_removeH_self hnodup'] at hl'
            exact Option.noConfusion hl'
          · rw [lookupH_removeH_ne _ _ _ (fun he => hid he.symm)] at hl'
            by_cases hidB : id' = bL.backPtr
            · subst hidB
              rw [lookupH_setH_self, hlB] at hl'
              cases Option.some.inj hl'
              refine ⟨bL, ?_, rfl⟩
              show (((st.pool.slots.set h.m_stringPtr (some bL)).set
                (st.pool.occupancy - 1) none))[(updateStringLocation hB
                  h.m_stringPtr).m_stringPtr]? = some (some bL)
              rw [List.getElem?_set_ne (by
                show ¬st.pool.occupancy - 1 =
                  (updateStringLocation hB h.m_stringPtr).m_stringPtr
                simp only [updateStringLocation]
                omega)]
              simp only [updateStringLocation]
              exact List.getElem?_set_self hi_len
            · rw [lookupH_setH_ne _ _ _ _ (fun he => hidB he.symm)] at hl'
              obtain ⟨b', hb', hid'⟩ := hI.handle_consistent id' h' hl' htp''
              have hpne : h'.m_stringPtr ≠ h.m_stringPtr := by
                intro he
                exact hid (handle_ptr_inj hI hl' hl htp'' htp' he)
              have hpneL : h'.m_stringPtr ≠ st.pool.occupancy - 1 := by
                intro he
                rw [he, hbL] at hb'
                cases Option.some.inj (Option.some.inj hb')
                exact hidB hid'.symm
              refine ⟨b', ?_, hid'⟩
              rw [List.getElem?_set_ne (fun he => hpneL he.symm),
                List.getElem?_set_ne (fun he => hpne he.symm)]
              exact hb'
        · intro id' h' hl' htp''
          by_cases hid : id' = id
          · subst hid
            rw [lookupH_removeH_self hnodup'] at hl'
            exact Option.noConfusion hl'
          · rw [lookupH_removeH_ne _ _ _ (fun he => hid he.symm)] at hl'
            by_cases hidB : id' = bL.backPtr
            · subst hidB
              rw [lookupH_setH_self, hlB] at hl'
              cases Option.some.inj hl'
              simp only [updateStringLocation] at htp''
              rw [htB] at htp''
              exact Bool.noConfusion htp''
            · rw [lookupH_setH_ne _ _ _ _ (fun he => hidB he.symm)] at hl'
              exact hI.temp_consistent id' h' hl' htp''
        · intro id' h' hl'
          by_cases hid : id' = id
          · subst hid
            rw [lookupH_removeH_self hnodup'] at hl'
            exact Option.noConfusion hl'
          · rw [lookupH_removeH_ne _ _ _ (fun he => hid he.symm)] at hl'
            by_cases hidB : id' = bL.backPtr
            · subst hidB
              exact hI.keys_lt _ _ hlB
            · rw [lookupH_setH_ne _ _ _ _ (fun he => hidB he.symm)] at hl'
              exact hI.keys_lt id' h' hl'
        · exact keys_removeH_nodup hnodup'

theorem Inv_applyOp {st : SysState} (hI : Inv st) (op : Op) :
    Inv (applyOp op st) := by
  cases op with
  | create s => exact Inv_create hI s
  | createTemp s => exact Inv_createTemp hI s
  | destroy id => exact Inv_destroy hI id
  | write id pat => exact Inv_writeH hI id pat

theorem Inv_run {st : SysState} (hI : Inv st) (ops : List Op) :
    Inv (run ops st) := by
  induction ops generalizing st with
  | nil => exact hI
  | cons op rest ih => exact ih (Inv_applyOp hI op)

theorem Inv_initState (memLimit : Nat) : Inv (initState memLimit) := by
  refine ⟨Nat.le_refl 0, ?_, ?_, ?_, ?_, ?_, ?_, ?_⟩
  · intro j hj
    exact absurd hj (by simp [initState])
  · intro j hj hjc
    exact absurd hjc (by simp [initState, CPool.capacity])
  · intro j b hb
    simp [initState] at hb
  · intro id h hl
    simp [initState, lookupH] at hl
  · intro id h hl
    simp [initState, lookupH] at hl
  · intro id h hl
    simp [initState, lookupH] at hl
  · simp [initState]

theorem readH_destroy_other {st : SysState} (hI : Inv st) {id id' : Nat}
    (hne : id' ≠ id) : readH id' ((destroy id st).2) = readH id' st := by
  unfold destroy
  split
  · rfl
  · rename_i h hl
    split
    · rfl
    · rename_i htp
      dsimp only
      have htp' : h.m_tempPool = false := by simpa using htp
      have hol : st.pool.occupancy ≤ st.pool.slots.length := hI.occ_le
      obtain ⟨b_i, hbi, hbid⟩ := hI.handle_consistent id h hl htp'
      have hi_lt : h.m_stringPtr < st.pool.occupancy := slot_lt_occ hI hbi
      have hi_len : h.m_stringPtr < st.pool.slots.length := by omega
      obtain ⟨bL, hbL⟩ := hI.dense_live (st.pool.occupancy - 1) (by omega)
      obtain ⟨hB, hlB, htB, hpB⟩ := hI.back_consistent _ bL hbL
      by_cases hcase : h.m_stringPtr = st.pool.occupancy - 1
      · simp only [freeBlk, if_pos hcase]
        unfold readH
        rw [lookupH_removeH_ne _ _ _ (Ne.symm hne)]
        cases hl' : lookupH id' st.handles with
        | none => rfl
        | some h' =>
          dsimp only
          by_cases htp'' : h'.m_tempPool = true
          · rw [if_pos htp'', if_pos htp'']
          · have htf : h'.m_tempPool = false := by
              cases hb : h'.m_tempPool
              · rfl
              · exact absurd hb htp''
            rw [if_neg htp'', if_neg htp'']
            obtain ⟨b', hb', hid'⟩ := hI.handle_consistent id' h' hl' htf
            have hpne : h'.m_stringPtr ≠ h.m_stringPtr := by
              intro he
              exact hne (handle_ptr_inj hI hl' hl htf htp' he)
            rw [List.getElem?_set_ne (fun he => hpne he.symm)]
      · simp only [freeBlk, if_neg hcase, hbL, hlB]
        have hne_bid : bL.backPtr ≠ id := by
          intro heq
          rw [heq, hl] at hlB
          cases Option.some.inj hlB
          exact hcase hpB
        unfold readH
        rw [lookupH_removeH_ne _ _ _ (Ne.symm hne)]
        by_cases hidB : id' = bL.backPtr
        · subst hidB
          rw [lookupH_setH_self, hlB]
          simp only [Option.map_some']
          simp only [updateStringLocation]
          rw [if_neg (by rw [htB]; exact Bool.false_ne_true),
            if_neg (by rw [htB]; exact Bool.false_ne_true)]
          rw [List.getElem?_set_ne (by omega), List.getElem?_set_self hi_len,
            hpB, hbL]
        · rw [lookupH_setH_ne _ _ _ _ (fun he => hidB he.symm)]
          cases hl' : lookupH id' st.handles with
          | none => rfl
          | some h' =>
            dsimp only
            by_cases htp'' : h'.m_tempPool = true
            · rw [if_pos htp'', if_pos htp'']
            · have htf : h'.m_tempPool = false := by
                cases hb : h'.m_tempPool
                · rfl
                · exact absurd hb htp''
              rw [if_neg htp'', if_neg htp'']
              obtain ⟨b', hb', hid'⟩ := hI.handle_consistent id' h' hl' htf
              have hpne : h'.m_stringPtr ≠ h.m_stringPtr := by
                intro he
                exact hne (handle_ptr_inj hI hl' hl htf htp' he)
              have hpneL : h'.m_stringPtr ≠ st.pool.occupancy - 1 := by
                intro he
                exact hidB (handle_ptr_inj hI hl' hlB htf htB (he.trans hpB.symm))
              rw [List.getElem?_set_ne (fun he => hpneL he.symm),
                List.getElem?_set_ne (fun he => hpne he.symm)]

theorem destroy_ok {st : SysState} (hI : Inv st) {id : Nat} {h : Handle}
    (hl : lookupH id st.handles = some h) (htp : h.m_tempPool = false) :
    (destroy id st).1 = .ok () ∧
    (destroy id st).2.pool.occupancy = st.pool.occupancy - 1 ∧
    lookupH id ((destroy id st).2).handles = none := by
  have hol : st.pool.occupancy ≤ st.pool.slots.length := hI.occ_le
  obtain ⟨b_i, hbi, hbid⟩ := hI.handle_consistent id h hl htp
  have hi_lt : h.m_stringPtr < st.pool.occupancy := slot_lt_occ hI hbi
  obtain ⟨bL, hbL⟩ := hI.dense_live (st.pool.occupancy - 1) (by omega)
  obtain ⟨hB, hlB, htB, hpB⟩ := hI.back_consistent _ bL hbL
  unfold destroy
  rw [hl]
  dsimp only
  rw [if_neg (by rw [htp]; exact Bool.false_ne_true)]
  by_cases hcase : h.m_stringPtr = st.pool.occupancy - 1
  · simp only [freeBlk, if_pos hcase]
    exact ⟨by trivial, by trivial, lookupH_removeH_self hI.keys_nodup⟩
  · simp only [freeBlk, if_neg hcase, hbL, hlB]
    refine ⟨by trivial, by trivial, ?_⟩
    apply lookupH_removeH_self
    rw [keys_setH]
    exact hI.keys_nodup

theorem handle_fields_stable_applyOp {st : SysState} (hI : Inv st)
    {id : Nat} {h : Handle} (hl : lookupH id st.handles = some h)
    {op : Op} (hop : op ≠ Op.destroy id) :
    ∃ h', lookupH id (applyOp op st).handles = some h' ∧
      h'.m_size = h.m_size ∧ h'.m_tempPool = h.m_tempPool := by
  have hidlt : id < st.nextId := hI.keys_lt id h hl
  cases op with
  | create s =>
    simp only [applyOp]
    unfold create
    split
    · exact ⟨h, hl, rfl, rfl⟩
    · split
      · exact ⟨h, hl, rfl, rfl⟩
      · dsimp only
        refine ⟨h, ?_, rfl, rfl⟩
        simp only [lookupH, if_neg (by omega : ¬st.nextId = id)]
        exact hl
  | createTemp s =>
    simp only [applyOp]
    unfold createTemp
    split
    · exact ⟨h, hl, rfl, rfl⟩
    · dsimp only
      refine ⟨h, ?_, rfl, rfl⟩
      simp only [lookupH, if_neg (by omega : ¬st.nextId = id)]
      exact hl
  | write id' pat =>
    simp only [applyOp]
    unfold writeH
    split
    · exact ⟨h, hl, rfl, rfl⟩
    · split
      · exact ⟨h, hl, rfl, rfl⟩
      · split
        · exact ⟨h, hl, rfl, rfl⟩
        · exact ⟨h, hl, rfl, rfl⟩
  | destroy id' =>
    have hne : id ≠ id' := by
      intro he
      exact hop (by rw [he])
    simp only [applyOp]
    unfold destroy
    split
    · exact ⟨h, hl, rfl, rfl⟩
    · rename_i h2 hl2
      split
      · exact ⟨h, hl, rfl, rfl⟩
      · rename_i htp2
        dsimp only
        have htp2' : h2.m_tempPool = false := by simpa using htp2
        have hol : st.pool.occupancy ≤ st.pool.slots.length := hI.occ_le
        obtain ⟨b2, hb2, hbid2⟩ := hI.handle_consistent id' h2 hl2 htp2'
        have h2_lt : h2.m_stringPtr < st.pool.occupancy := slot_lt_occ hI hb2
        obtain ⟨bL, hbL⟩ := hI.dense_live (st.pool.occupancy - 1) (by omega)
        obtain ⟨hB, hlB, htB, hpB⟩ := hI.back_consistent _ bL hbL
        by_cases hcase : h2.m_stringPtr = st.pool.occupancy - 1
        · simp only [freeBlk, if_pos hcase]
          refine ⟨h, ?_, rfl, rfl⟩
          rw [lookupH_removeH_ne _ _ _ (Ne.symm hne)]
          exact hl
        · simp only [freeBlk, if_neg hcase, hbL, hlB]
          rw [lookupH_removeH_ne _ _ _ (Ne.symm hne)]
          by_cases hidB : id = bL.backPtr
          · subst hidB
            rw [hl] at hlB
            cases Option.some.inj hlB
            refine ⟨updateStringLocation h h2.m_stringPtr, ?_, rfl, rfl⟩
            rw [lookupH_setH_self, hl]
            rfl
          · refine ⟨h, ?_, rfl, rfl⟩
            rw [lookupH_setH_ne _ _ _ _ (fun he => hidB he.symm)]
            exact hl

theorem handle_fields_stable_run {st : SysState} (hI : Inv st)
    {id : Nat} {h : Handle} (hl : lookupH id st.handles = some h)
    {ops : List Op} (hops : ∀ op ∈ ops, op ≠ Op.destroy id) :
    ∃ h', lookupH id (run ops st).handles = some h' ∧
      h'.m_size = h.m_size ∧ h'.m_tempPool = h.m_tempPool := by
  induction ops generalizing st h with
  | nil => exact ⟨h, hl, rfl, rfl⟩
  | cons op rest ih =>
    obtain ⟨h1, hl1, hs1, ht1⟩ := handle_fields_stable_applyOp hI hl
      (hops op (List.mem_cons_self op rest))
    obtain ⟨h2, hl2, hs2, ht2⟩ := ih (Inv_applyOp hI op) hl1
      (fun o ho => hops o (List.mem_cons_of_mem op ho))
    exact ⟨h2, hl2, hs2.trans hs1, ht2.trans ht1⟩

theorem not_destroy_of_destroys_false {id : Nat} {ops : List Op}
    (hd : destroys id ops = false) : ∀ op ∈ ops, op ≠ Op.destroy id := by
  induction ops with
  | nil =>
    intro op hop
    simp at hop
  | cons o rest ih =>
    intro op hop
    rcases List.mem_cons.mp hop with he | hm
    · subst he
      intro heq
      subst heq
      simp [destroys] at hd
    · cases o with
      | destroy id' =>
        simp only [destroys, Bool.or_eq_false_iff] at hd
        exact ih hd.2 op hm
      | create s => exact ih (by simpa [destroys] using hd) op hm
      | createTemp s => exact ih (by simpa [destroys] using hd) op hm
      | write i p => exact ih (by simpa [destroys] using hd) op hm

/-- C1: `free(block_address)` implements swap-to-end compaction — freeing
the last live slot just decrements occupancy; freeing any other slot `i`
copies the last block (payload and back-pointer) into slot `i`, invokes
`updateStringLocation` on the Handle named by that back-pointer with the
new address `i`, and decrements occupancy — and consequently, after any
sequence of creates and destroys, the live blocks occupy exactly the
contiguous index prefix `[0, occupancy)` with no gaps. -/
theorem C1_swap_to_end_compaction :
    (∀ (p : CPool) (hs : List (Nat × Handle)) (i : Nat), i = p.occupancy - 1 →
      freeBlk i p hs =
        ({ slots := p.slots.set i none, occupancy := p.occupancy - 1 }, hs)) ∧
    (∀ (p : CPool) (hs : List (Nat × Handle)) (i : Nat) (b : Block) (hb : Handle),
      i ≠ p.occupancy - 1 →
      p.slots[p.occupancy - 1]? = some (some b) →
      lookupH b.backPtr hs = some hb →
      freeBlk i p hs =
        ({ slots := (p.slots.set i (some b)).set (p.occupancy - 1) none,
           occupancy := p.occupancy - 1 },
         setH b.backPtr (updateStringLocation hb i) hs)) ∧
    (∀ (ops : List Op) (st : SysState), Inv st → ∀ j,
      (∃ b, (run ops st).pool.slots[j]? = some (some b)) ↔
        j < (run ops st).pool.occupancy) := by
  refine ⟨?_, ?_, ?_⟩
  · intro p hs i hi
    simp only [freeBlk, if_pos hi]
  · intro p hs i b hb hi hsl hlb
    simp only [freeBlk, if_neg hi, hsl, hlb]
  · intro ops st hI j
    have hI' := Inv_run hI ops
    constructor
    · rintro ⟨b, hb⟩
      exact slot_lt_occ hI' hb
    · intro hj
      exact hI'.dense_live j hj

/-- Witness for C1 at concrete inputs: freeing the last slot of a
one-block pool, freeing slot 0 of a two-block pool (relocation), and
the dense-prefix property after a create/create/destroy sequence. -/
theorem C1_witness :
    ((0 : Nat) = (⟨[some ⟨0, [7]⟩], 1⟩ : CPool).occupancy - 1) ∧
    freeBlk 0 ⟨[some ⟨0, [7]⟩], 1⟩ [] =
      ({ slots := (⟨[some ⟨0, [7]⟩], 1⟩ : CPool).slots.set 0 none,
         occupancy := (⟨[some ⟨0, [7]⟩], 1⟩ : CPool).occupancy - 1 }, []) ∧
    ((0 : Nat) ≠ (⟨[some ⟨0, [7]⟩, some ⟨1, [9]⟩], 2⟩ : CPool).occupancy - 1) ∧
    freeBlk 0 ⟨[some ⟨0, [7]⟩, some ⟨1, [9]⟩], 2⟩
        [(0, ⟨1, false, 0⟩), (1, ⟨1, false, 1⟩)] =
      ({ slots := ((⟨[some ⟨0, [7]⟩, some ⟨1, [9]⟩], 2⟩ : CPool).slots.set 0
            (some ⟨1, [9]⟩)).set 1 none, occupancy := 1 },
       setH 1 (updateStringLocation ⟨1, false, 1⟩ 0)
         [(0, ⟨1, false, 0⟩), (1, ⟨1, false, 1⟩)]) ∧
    Inv (initState 100) ∧
    0 < (run [Op.create 1, Op.create 1, Op.destroy 0] (initState 100)).pool.occupancy := by
  refine ⟨by decide, C1_swap_to_end_compaction.1 _ _ 0 (by decide),
    by decide, C1_swap_to_end_compaction.2.1 _ _ 0 ⟨1, [9]⟩ ⟨1, false, 1⟩
      (by decide) rfl rfl,
    Inv_initState 100, ?_⟩
  exact (C1_swap_to_end_compaction.2.2 [Op.create 1, Op.create 1, Op.destroy 0]
    (initState 100) (Inv_initState 100) 0).mp ⟨⟨1, [0]⟩, rfl⟩

/-- C2: destroying one Handle never disturbs the bytes read through any
other live Handle — and in the concrete two-handle scenario, destroying
the first handle relocates the second handle's block into slot 0, its
bytes still read "GOODBYEFLY", and occupancy drops from 2 to 1. -/
theorem C2_relocation_correctness :
    (∀ (st : SysState) (h1 h2 h3 : Nat) (p1 p3 : List Byte), Inv st →
      h1 ≠ h2 → h3 ≠ h2 →
      readH h1 st = some p1 → readH h3 st = some p3 →
      readH h1 ((destroy h2 st).2) = some p1 ∧
      readH h3 ((destroy h2 st).2) = some p3) ∧
    (readH 1 ((destroy 0 demoState).2) = some goodbyePattern ∧
     (lookupH 1 ((destroy 0 demoState).2).handles).map Handle.get = some 0 ∧
     demoState.pool.occupancy = 2 ∧
     ((destroy 0 demoState).2).pool.occupancy = 1) := by
  constructor
  · intro st h1 h2 h3 p1 p3 hI hne1 hne3 hr1 hr3
    rw [readH_destroy_other hI hne1, readH_destroy_other hI hne3]
    exact ⟨hr1, hr3⟩
  · refine ⟨by decide, by decide, by decide, by decide⟩

/-- Witness for C2: the general preservation statement applied to the
concrete two-handle scenario. -/
theorem C2_witness :
    Inv demoState ∧ (1 : Nat) ≠ 0 ∧
    readH 1 demoState = some goodbyePattern ∧
    readH 1 ((destroy 0 demoState).2) = some goodbyePattern :=
  ⟨Inv_run (Inv_initState 100) _, by decide, by decide,
   (C2_relocation_correctness.1 demoState 1 0 1 goodbyePattern goodbyePattern
     (Inv_run (Inv_initState 100) _) (by decide) (by decide)
     (by decide) (by decide)).1⟩

/-- C3: a Handle's identity is stable — as long as a Handle is not
itself destroyed, any sequence of sibling operations leaves it
reachable under the same identity with its `m_size` and `m_tempPool`
unchanged (only the cached block pointer may be rewritten); no
operation relocates a Handle object. -/
theorem C3_handle_address_stability (ops : List Op) (st : SysState)
    (id : Nat) (h : Handle) (hI : Inv st)
    (hl : lookupH id st.handles = some h)
    (hops : destroys id ops = false) :
    handleSig (lookupH id (run ops st).handles) =
      some (h.m_size, h.m_tempPool) := by
  obtain ⟨h', hl', hs', ht'⟩ :=
    handle_fields_stable_run hI hl (not_destroy_of_destroys_false hops)
  rw [handleSig, hl']
  simp only [Option.map_some']
  rw [hs', ht']

/-- Witness for C3: handle 0 of the demo state survives a sibling
create and a sibling destroy with its fields intact. -/
theorem C3_witness :
    Inv demoState ∧
    lookupH 0 demoState.handles = some ⟨10, false, 0⟩ ∧
    destroys 0 [Op.create 3, Op.destroy 1] = false ∧
    handleSig (lookupH 0 (run [Op.create 3, Op.destroy 1] demoState).handles) =
      some (10, false) :=
  ⟨Inv_run (Inv_initState 100) _, by decide, by decide,
   C3_handle_address_stability [Op.create 3, Op.destroy 1] demoState 0
     ⟨10, false, 0⟩ (Inv_run (Inv_initState 100) _) (by decide) (by decide)⟩

/-- C4: with an arena supplied, `create(size, arena)` carves the byte
block from the arena, sets `m_tempPool = true`, and installs no
back-pointer (no pool block ever names the new Handle); without an
arena, `create(size)` takes the block from the Compacting Pool, sets
`m_tempPool = false`, and installs a back-pointer in the block's hidden
slot naming the new Handle. -/
theorem C4_create_arena_vs_pool (s : Nat) (st : SysState) (hI : Inv st)
    (hs0 : 0 < s) (hsmax : s ≤ maxBlockSize)
    (hgrow : growCap st.pool ≤ st.memLimit) :
    ((createTemp s st).1 = .ok st.nextId ∧
     lookupH st.nextId ((createTemp s st).2).handles =
       some ⟨s, true, st.arena.length⟩ ∧
     ((createTemp s st).2).arena = st.arena ++ [List.replicate s 0] ∧
     ((createTemp s st).2).pool = st.pool ∧
     (∀ (j : Nat) (b : Block),
        ((createTemp s st).2).pool.slots[j]? = some (some b) →
        b.backPtr ≠ st.nextId)) ∧
    ((create s st).1 = .ok st.nextId ∧
     lookupH st.nextId ((create s st).2).handles =
       some ⟨s, false, st.pool.occupancy⟩ ∧
     ((create s st).2).pool.slots[st.pool.occupancy]? =
       some (some ⟨st.nextId, List.replicate s 0⟩)) := by
  have hng : ¬(s = 0 ∨ maxBlockSize < s) := by omega
  have hom : ¬(st.pool.occupancy = st.pool.capacity ∧
      st.memLimit < growCap st.pool) := by
    rintro ⟨-, hlt⟩
    omega
  constructor
  · unfold createTemp
    rw [if_neg hng]
    dsimp only
    refine ⟨rfl, ?_, rfl, rfl, ?_⟩
    · simp [lookupH]
    · intro j b hb
      obtain ⟨h0, hl0, -, -⟩ := hI.back_consistent j b hb
      have := hI.keys_lt _ _ hl0
      omega
  · unfold create
    rw [if_neg hng, if_neg hom]
    dsimp only
    refine ⟨rfl, ?_, ?_⟩
    · simp [lookupH]
    · exact List.getElem?_set_self (occ_lt_growIfFull_length hI.occ_le)

/-- Witness for C4 at size 10 against the empty initial state. -/
theorem C4_witness :
    (0 : Nat) < 10 ∧ 10 ≤ maxBlockSize ∧ Inv (initState 100) ∧
    growCap (initState 100).pool ≤ (initState 100).memLimit ∧
    (createTemp 10 (initState 100)).1 = .ok 0 ∧
    (create 10 (initState 100)).1 = .ok 0 ∧
    lookupH 0 ((createTemp 10 (initState 100)).2).handles =
      some ⟨10, true, 0⟩ ∧
    lookupH 0 ((create 10 (initState 100)).2).handles =
      some ⟨10, false, 0⟩ := by
  have h4 := C4_create_arena_vs_pool 10 (initState 100) (Inv_initState 100)
    (by decide) (by decide) (by decide)
  exact ⟨by decide, by decide, Inv_initState 100, by decide,
    h4.1.1, h4.2.1, h4.1.2.1, h4.2.2.1⟩

/-- C5: round trip — creating a block of any valid size, writing a
pattern of that length through the returned pointer, then reading
through `get()` yields exactly that pattern, unmodified. -/
theorem C5_round_trip (s : Nat) (st : SysState) (pattern : List Byte)
    (hI : Inv st) (hs0 : 0 < s) (hsmax : s ≤ maxBlockSize)
    (hgrow : growCap st.pool ≤ st.memLimit)
    (hplen : pattern.length = s) :
    (create s st).1 = .ok st.nextId ∧
    readH st.nextId ((writeH st.nextId pattern ((create s st).2)).2) =
      some pattern := by
  have hng : ¬(s = 0 ∨ maxBlockSize < s) := by omega
  have hom : ¬(st.pool.occupancy = st.pool.capacity ∧
      st.memLimit < growCap st.pool) := by
    rintro ⟨-, hlt⟩
    omega
  have hLen : st.pool.occupancy < (growIfFull st.pool).slots.length :=
    occ_lt_growIfFull_length hI.occ_le
  unfold create
  rw [if_neg hng, if_neg hom]
  dsimp only
  refine ⟨rfl, ?_⟩
  unfold writeH
  rw [lookupH_cons_self]
  dsimp only
  rw [if_neg Bool.false_ne_true]
  rw [List.getElem?_set_self hLen]
  dsimp only
  unfold readH
  rw [lookupH_cons_self]
  dsimp only
  rw [if_neg Bool.false_ne_true]
  rw [List.getElem?_set_self (by rw [List.length_set]; exact hLen)]

/-- Witness for C5 at size 7 with a seven-byte pattern. -/
theorem C5_witness :
    (0 : Nat) < 7 ∧ 7 ≤ maxBlockSize ∧ Inv (initState 100) ∧
    growCap (initState 100).pool ≤ (initState 100).memLimit ∧
    ([1, 2, 3, 4, 5, 6, 7] : List Byte).length = 7 ∧
    readH 0 ((writeH 0 [1, 2, 3, 4, 5, 6, 7]
        ((create 7 (initState 100)).2)).2) = some [1, 2, 3, 4, 5, 6, 7] :=
  ⟨by decide, by decide, Inv_initState 100, by decide, by decide,
   (C5_round_trip 7 (initState 100) [1, 2, 3, 4, 5, 6, 7]
     (Inv_initState 100) (by decide) (by decide) (by decide) (by decide)).2⟩

/-- C6: the size-class bucketing function is pure and deterministic
(equal inputs yield equal classes), monotonically non-decreasing, and
the resulting class's byte capacity is at least the requested size. -/
theorem C6_size_class_bucketing :
    (∀ s t : Nat, s = t → sizeClass s = sizeClass t) ∧
    (∀ s t : Nat, s ≤ t → sizeClass s ≤ sizeClass t) ∧
    (∀ s : Nat, s ≤ sizeClass s) := by
  refine ⟨fun s t h => by rw [h], fun s t h => ?_,
    fun s => Nat.le_pow_clog (by norm_num) s⟩
  exact Nat.pow_le_pow_right (by norm_num) (Nat.clog_mono_right 2 h)

/-- Witness for C6 at concrete sizes. -/
theorem C6_witness :
    sizeClass 10 = sizeClass 10 ∧ sizeClass 3 ≤ sizeClass 9 ∧
    (10 : Nat) ≤ sizeClass 10 :=
  ⟨C6_size_class_bucketing.1 10 10 rfl,
   C6_size_class_bucketing.2.1 3 9 (by decide),
   C6_size_class_bucketing.2.2 10⟩

/-- C7: `create` rejects size 0 and oversize requests with InvalidSize
before performing any allocation — the state returned with the error is
exactly the input state, on both the pool and the arena path. -/
theorem C7_invalid_size_rejected (s : Nat) (st : SysState)
    (hbad : s = 0 ∨ maxBlockSize < s) :
    create s st = (.error .InvalidSize, st) ∧
    createTemp s st = (.error .InvalidSize, st) := by
  unfold create createTemp
  rw [if_pos hbad, if_pos hbad]
  exact ⟨rfl, rfl⟩

/-- Witness for C7 at size 0. -/
theorem C7_witness :
    ((0 : Nat) = 0 ∨ maxBlockSize < 0) ∧
    create 0 (initState 5) = (.error .InvalidSize, initState 5) ∧
    createTemp 0 (initState 5) = (.error .InvalidSize, initState 5) :=
  ⟨Or.inl rfl,
   (C7_invalid_size_rejected 0 (initState 5) (Or.inl rfl)).1,
   (C7_invalid_size_rejected 0 (initState 5) (Or.inl rfl)).2⟩

/-- C8: `destroy` on a temporary arena-backed Handle is a precondition
violation that changes nothing; destroying the same Handle twice fails
the second time as a precondition violation; a valid destroy succeeds,
returns the block to the pool (occupancy decremented) and releases the
Handle. -/
theorem C8_destroy_preconditions :
    (∀ (st : SysState) (id : Nat) (h : Handle),
      lookupH id st.handles = some h → h.m_tempPool = true →
      destroy id st = (.error .PreconditionViolation, st)) ∧
    (∀ (st st2 : SysState) (id : Nat), Inv st →
      destroy id st = (.ok (), st2) →
      destroy id st2 = (.error .PreconditionViolation, st2)) ∧
    (∀ (st : SysState) (id : Nat) (h : Handle), Inv st →
      lookupH id st.handles = some h → h.m_tempPool = false →
      (destroy id st).1 = .ok () ∧
      (destroy id st).2.pool.occupancy = st.pool.occupancy - 1 ∧
      lookupH id ((destroy id st).2).handles = none) := by
  refine ⟨?_, ?_, ?_⟩
  · intro st id h hl htp
    unfold destroy
    rw [hl]
    dsimp only
    rw [if_pos htp]
  · intro st st2 id hI heq
    cases hl : lookupH id st.handles with
    | none =>
      unfold destroy at heq
      rw [hl] at heq
      exact absurd (congrArg Prod.fst heq) (by simp)
    | some h =>
      by_cases htp : h.m_tempPool = true
      · unfold destroy at heq
        rw [hl] at heq
        dsimp only at heq
        rw [if_pos htp] at heq
        exact absurd (congrArg Prod.fst heq) (by simp)
      · have htp' : h.m_tempPool = false := by
          cases hb : h.m_tempPool
          · rfl
          · exact absurd hb htp
        obtain ⟨-, -, hnone⟩ := destroy_ok hI hl htp'
        have hst2 : st2 = (destroy id st).2 := (congrArg Prod.snd heq).symm
        subst hst2
        generalize hg : (destroy id st).2 = st3 at hnone ⊢
        unfold destroy
        rw [hnone]
  · intro st id h hI hl htp
    exact destroy_ok hI hl htp

/-- Witness for C8: a temporary handle refuses destruction, a valid
destroy succeeds and decrements occupancy, and a second destroy of the
same identity fails. -/
theorem C8_witness :
    lookupH 0 tempDemo.handles = some ⟨4, true, 0⟩ ∧
    destroy 0 tempDemo = (.error .PreconditionViolation, tempDemo) ∧
    Inv oneDemo ∧
    lookupH 0 oneDemo.handles = some ⟨5, false, 0⟩ ∧
    destroy 0 oneDemo = (.ok (), (destroy 0 oneDemo).2) ∧
    destroy 0 ((destroy 0 oneDemo).2) =
      (.error .PreconditionViolation, (destroy 0 oneDemo).2) ∧
    (destroy 0 oneDemo).2.pool.occupancy = oneDemo.pool.occupancy - 1 ∧
    lookupH 0 ((destroy 0 oneDemo).2).handles = none := by
  have hInv : Inv oneDemo := Inv_run (Inv_initState 100) _
  have h3 := C8_destroy_preconditions.2.2 oneDemo 0 ⟨5, false, 0⟩ hInv
    (by decide) (by decide)
  exact ⟨by decide,
    C8_destroy_preconditions.1 tempDemo 0 ⟨4, true, 0⟩ (by decide) (by decide),
    hInv, by decide, rfl,
    C8_destroy_preconditions.2.1 oneDemo ((destroy 0 oneDemo).2) 0 hInv rfl,
    h3.2.1, h3.2.2⟩

/-- C9: when the pool is full and the memory budget forbids growth,
`create` fails with OutOfMemory and leaves the state unchanged; more
generally every failing `create` returns the input state untouched. -/
theorem C9_out_of_memory :
    (∀ (s : Nat) (st : SysState), 0 < s → s ≤ maxBlockSize →
      st.pool.occupancy = st.pool.capacity →
      st.memLimit < growCap st.pool →
      create s st = (.error .OutOfMemory, st)) ∧
    (∀ (s : Nat) (st : SysState) (e : Err) (st2 : SysState),
      create s st = (.error e, st2) → st2 = st) := by
  constructor
  · intro s st hs0 hsmax hfull hmem
    unfold create
    rw [if_neg (by omega), if_pos ⟨hfull, hmem⟩]
  · intro s st e st2 heq
    unfold create at heq
    split at heq
    · exact (congrArg Prod.snd heq).symm
    · split at heq
      · exact (congrArg Prod.snd heq).symm
      · exact absurd (congrArg Prod.fst heq) (by simp)

/-- Witness for C9 on the full demonstration pool with a zero budget. -/
theorem C9_witness :
    (0 : Nat) < 5 ∧ 5 ≤ maxBlockSize ∧
    fullDemo.pool.occupancy = fullDemo.pool.capacity ∧
    fullDemo.memLimit < growCap fullDemo.pool ∧
    create 5 fullDemo = (.error .OutOfMemory, fullDemo) ∧
    (create 5 fullDemo).2 = fullDemo :=
  ⟨by decide, by decide, by decide, by decide,
   C9_out_of_memory.1 5 fullDemo (by decide) (by decide) (by decide)
     (by decide),
   C9_out_of_memory.2 5 fullDemo .OutOfMemory (create 5 fullDemo).2 rfl⟩

/-- C10: `updateStringLocation` overwrites only the cached byte-block
pointer — `m_size` and `m_tempPool` are unchanged by every relocation,
and `get()` immediately afterwards returns the new location. -/
theorem C10_update_location_frame :
    ∀ (h : Handle) (location : Nat),
      (updateStringLocation h location).m_size = h.m_size ∧
      (updateStringLocation h location).m_tempPool = h.m_tempPool ∧
      (updateStringLocation h location).m_stringPtr = location ∧
      Handle.get (updateStringLocation h location) = location :=
  fun _ _ => ⟨rfl, rfl, rfl, rfl⟩

end SStore
